import Mathlib

/-!
# Verification of the youtube-to-plex core logic

Shallow embedding of the pure core of the repository:

* `PlexNamingHelper.extract_episode_info`, `sanitize_filename` and
  `generate_plex_path` from `src/download_manager.py`,
* `VideoFilter.filter_by_upload_date` and `filter_by_duration` from
  `src/video_filter.py`,
* `YouTubeVideo.duration_minutes` from `src/youtube_client.py`,
* `DownloadManager._create_nfo_file` from `src/download_manager.py`,
* the `upload_window_days` field constraint of `FiltersConfig` from
  `src/config.py`.

Strings are modelled as `List Char`.  Python's `re` character classes
(`\s`, `\d`, `\w`) and case folding are Unicode-aware; the embedding uses
their ASCII fragments, which is exact on every input the claims and the
repository's tests exercise.  The eight title patterns of
`extract_episode_info` use only the constructs `(.+?)`, `\s+`, `(\d+)`,
case-insensitive literals and `$`; they are embedded by a small matcher
(`matchTail`/`tryFrom`/`searchPat`) that reproduces `re.search` semantics
for exactly this shape of pattern: leftmost start position, lazy group 1
(which cannot cross a newline, as `.` does not match `'\n'`), and greedy
`\s+`/`\d+`.  For these patterns greedy repetition never needs to
backtrack, because every token following `\s+` (resp. `(\d+)`) begins
with a non-space (resp. non-digit) character.
-/

/-- ASCII fragment of Python's `\s` / `str.strip` whitespace:
space, tab, newline, carriage return, vertical tab, form feed. -/
def pySpace (c : Char) : Bool :=
  c == ' ' || c == '\t' || c == '\n' || c == '\r' || c == '\x0b' || c == '\x0c'

/-- ASCII decimal digit, the ASCII fragment of Python's `\d`. -/
def pyDigit (c : Char) : Bool :=
  48 ≤ c.toNat && c.toNat ≤ 57

/-- ASCII lower-casing, the folding Python's `re.IGNORECASE` performs on
ASCII letters. -/
def lowerChar (c : Char) : Char :=
  if 65 ≤ c.toNat ∧ c.toNat ≤ 90 then Char.ofNat (c.toNat + 32) else c

/-- Value of a decimal digit character. -/
def digitVal (c : Char) : Nat := c.toNat - 48

/-- Base-10 value of a digit string, as computed by Python's `int()`. -/
def natOfDigits (l : List Char) : Nat :=
  l.foldl (fun a c => a * 10 + digitVal c) 0

/-- Python's `str.strip()`: drop leading and trailing whitespace. -/
def pyStrip (l : List Char) : List Char :=
  ((l.dropWhile pySpace).reverse.dropWhile pySpace).reverse

/-- Tokens of the tail of a title pattern (everything after the leading
`(.+?)`): greedy `\s+`, a case-insensitive literal, a capturing greedy
`(\d+)`, or the end anchor `$`. -/
inductive Tok where
  | ws : Tok
  | lit : List Char → Tok
  | cap : Tok
  | eos : Tok
deriving Repr, DecidableEq

/-- Case-insensitive literal match: if `s` starts with `pat` (up to ASCII
case), return the remainder of `s`. -/
def stripCI : List Char → List Char → Option (List Char)
  | [], s => some s
  | _ :: _, [] => none
  | p :: ps, c :: cs => if lowerChar c == lowerChar p then stripCI ps cs else none

/-- Match a pattern tail against (a prefix of) `s`, returning the list of
`(\d+)` captures.  Greedy `\s+` and `(\d+)` take their maximal run; for the
eight patterns of `extract_episode_info` this agrees with Python's
backtracking. -/
def matchTail : List Tok → List Char → Option (List (List Char))
  | [], _ => some []
  | Tok.ws :: ts, s =>
      if s.takeWhile pySpace = [] then none
      else matchTail ts (s.dropWhile pySpace)
  | Tok.lit l :: ts, s =>
      match stripCI l s with
      | some r => matchTail ts r
      | none => none
  | Tok.cap :: ts, s =>
      let d := s.takeWhile pyDigit
      if d = [] then none
      else (matchTail ts (s.dropWhile pyDigit)).map (d :: ·)
  | Tok.eos :: ts, s => if s = [] then matchTail ts s else none

/-- Lazy expansion of the leading `(.+?)` group: starting from the
accumulated group `g1`, take one more character (never `'\n'`) and try the
pattern tail; on failure extend the group.  Returns the group-1 text and
the numeric captures of the first success. -/
def tryFrom (ts : List Tok) (g1 : List Char) :
    List Char → Option (List Char × List (List Char))
  | [] => none
  | c :: rest =>
      if c = '\n' then none
      else
        match matchTail ts rest with
        | some caps => some (g1 ++ [c], caps)
        | none => tryFrom ts (g1 ++ [c]) rest

/-- `re.search` over a pattern `(.+?)⟨ts⟩`: try every start position from
the left, lazily expanding group 1 at each. -/
def searchPat (ts : List Tok) : List Char → Option (List Char × List (List Char))
  | [] => none
  | c :: s =>
      match tryFrom ts [] (c :: s) with
      | some r => some r
      | none => searchPat ts s

/-- Pattern 1: `(.+?)\s+S(\d+)E(\d+)`. -/
def pat1 : List Tok := [.ws, .lit ['S'], .cap, .lit ['E'], .cap]

/-- Pattern 2: `(.+?)\s+Season\s+(\d+)\s+Episode\s+(\d+)`. -/
def pat2 : List Tok :=
  [.ws, .lit "Season".toList, .ws, .cap, .ws, .lit "Episode".toList, .ws, .cap]

/-- Pattern 3: `(.+?)\s+(\d+)x(\d+)`. -/
def pat3 : List Tok := [.ws, .cap, .lit ['x'], .cap]

/-- Pattern 4: `(.+?)\s+Series\s+(\d+)\s+Episode\s+(\d+)`. -/
def pat4 : List Tok :=
  [.ws, .lit "Series".toList, .ws, .cap, .ws, .lit "Episode".toList, .ws, .cap]

/-- Pattern 5: `(.+?)\s+-\s+Series\s+(\d+)\s+-\s+Episode\s+(\d+)`. -/
def pat5 : List Tok :=
  [.ws, .lit ['-'], .ws, .lit "Series".toList, .ws, .cap, .ws, .lit ['-'],
   .ws, .lit "Episode".toList, .ws, .cap]

/-- Pattern 6: `(.+?)\s+-\s+Episode\s+(\d+)`. -/
def pat6 : List Tok := [.ws, .lit ['-'], .ws, .lit "Episode".toList, .ws, .cap]

/-- Pattern 7: `(.+?)\s+Episode\s+(\d+)`. -/
def pat7 : List Tok := [.ws, .lit "Episode".toList, .ws, .cap]

/-- Pattern 8: `(.+?)\s+(\d+)$`. -/
def pat8 : List Tok := [.ws, .cap, .eos]

/-- The ordered pattern list of `extract_episode_info` (order matters!). -/
def patternList : List (List Tok) := [pat1, pat2, pat3, pat4, pat5, pat6, pat7, pat8]

/-- The pattern loop of `extract_episode_info`: the first matching pattern
wins; three regex groups give `(series, season, episode)`, two groups give
`(series, 1, episode)`. -/
def extractGo : List (List Tok) → List Char →
    Option (List Char) × Option Nat × Option Nat
  | [], _ => (none, none, none)
  | p :: ps, t =>
      match searchPat p t with
      | some (g1, [d1, d2]) =>
          (some (pyStrip g1), some (natOfDigits d1), some (natOfDigits d2))
      | some (g1, [d]) =>
          (some (pyStrip g1), some 1, some (natOfDigits d))
      | _ => extractGo ps t

/-- `PlexNamingHelper.extract_episode_info`: extract series name, season
and episode from a title, or `(None, None, None)` when no pattern
matches. -/
def extract_episode_info (title : List Char) :
    Option (List Char) × Option Nat × Option Nat :=
  extractGo patternList title

/-- ASCII alphanumeric character, the ASCII fragment of Python's
alphanumerics. -/
def pyAlnum (c : Char) : Bool :=
  (48 ≤ c.toNat && c.toNat ≤ 57) || (65 ≤ c.toNat && c.toNat ≤ 90) ||
    (97 ≤ c.toNat && c.toNat ≤ 122)

/-- ASCII fragment of Python's `\w`: alphanumeric or underscore. -/
def pyWord (c : Char) : Bool :=
  pyAlnum c || c == '_'

/-- The characters removed by the first substitution of
`sanitize_filename`: the regex class `[<>:"/\\|?*]`. -/
def badChar (c : Char) : Bool :=
  c == '<' || c == '>' || c == ':' || c == '"' || c == '/' || c == '\\' ||
    c == '|' || c == '?' || c == '*'

/-- The characters kept by the second substitution of `sanitize_filename`:
the regex class `[\w\s\-_\.\(\)]`. -/
def keepChar (c : Char) : Bool :=
  pyWord c || pySpace c || c == '-' || c == '_' || c == '.' || c == '(' || c == ')'

/-- `re.sub(r'\s+', ' ', s)`: replace every maximal nonempty whitespace run
by a single space.  The flag records whether the previous character was
part of a whitespace run. -/
def collapseWs : Bool → List Char → List Char
  | _, [] => []
  | inRun, c :: t =>
      if pySpace c then
        if inRun then collapseWs true t else ' ' :: collapseWs true t
      else c :: collapseWs false t

/-- `PlexNamingHelper.sanitize_filename`: remove the forbidden characters,
whitelist-filter, collapse whitespace and strip, then truncate to 200
characters plus a literal `"..."`. -/
def sanitize_filename (filename : List Char) : List Char :=
  let f1 := filename.filter (fun c => !badChar c)
  let f2 := f1.filter keepChar
  let f3 := pyStrip (collapseWs false f2)
  if f3.length > 200 then f3.take 200 ++ "...".toList else f3

/-- `YouTubeVideo` metadata record.  `published_at` string parsing (ISO or
RSS) lives in `youtube_client.py` and is outside every claim; the
timezone-naive calendar date of `published_datetime` is carried directly
as the fields `publishedY/M/D`. -/
structure YouTubeVideo where
  video_id : List Char
  title : List Char
  publishedY : Nat
  publishedM : Nat
  publishedD : Nat
  description : List Char
  duration : List Char
  view_count : Nat
  channel_title : List Char
deriving DecidableEq

/-- One optional component `(?:(\d+)X)?` of the ISO-8601 duration regex:
a maximal digit run followed by the literal `c`, or no match (position
unchanged).  Taking the maximal run is exact because the literal is never
a digit. -/
def optNumLit (c : Char) (s : List Char) : Option (List Char) × List Char :=
  let ds := s.takeWhile pyDigit
  if ds = [] then (none, s)
  else
    match s.dropWhile pyDigit with
    | c' :: r => if c' = c then (some ds, r) else (none, s)
    | [] => (none, s)

/-- `YouTubeVideo.duration_minutes`: parse `PT(h)H(m)M(s)S` (each component
optional) and return `60*h + m`, rounding any positive seconds up by one
minute; `none` for an empty string or one not starting with `PT`. -/
def duration_minutes (dur : List Char) : Option Nat :=
  match dur with
  | 'P' :: 'T' :: rest =>
      let (h, r1) := optNumLit 'H' rest
      let (m, r2) := optNumLit 'M' r1
      let (s, _) := optNumLit 'S' r2
      let hours := natOfDigits (h.getD [])
      let minutes := natOfDigits (m.getD [])
      let seconds := natOfDigits (s.getD [])
      some (hours * 60 + minutes + (if seconds > 0 then 1 else 0))
  | _ => none

/-- `pathlib`-style joining of path segments onto a base directory: each
nonempty segment is appended after a `/`; an empty segment is dropped,
as `Path(base) / ""` leaves the path unchanged.  `expanduser` and other
`Path` normalisation are not modelled (no claim exercises them). -/
def pathJoin (base : List Char) (segs : List (List Char)) : List Char :=
  segs.foldl (fun acc s => if s = [] then acc else acc ++ '/' :: s) base

/-- Zero-padded two-digit formatting, Python's `f"{n:02d}"` for `n ≥ 0`. -/
def fmt02 (n : Nat) : List Char :=
  if n < 10 then '0' :: Nat.toDigits 10 n else Nat.toDigits 10 n

/-- `PlexNamingHelper.generate_plex_path`: extract episode info from the
title, fall back to the channel title (or `"Unknown Channel"`) when no
series is detected, and build the directory plus filename stem. -/
def generate_plex_path (video : YouTubeVideo) (base_dir : List Char)
    (organize_by_season : Bool) : List Char × List Char :=
  let ext := extract_episode_info video.title
  let series_name :=
    match ext.1 with
    | some s => s
    | none => if video.channel_title = [] then "Unknown Channel".toList
              else video.channel_title
  let season := match ext.1 with | some _ => ext.2.1 | none => none
  let episode := match ext.1 with | some _ => ext.2.2 | none => none
  let series_dir := sanitize_filename series_name
  match organize_by_season, season, episode with
  | true, some sn, some ep =>
      (pathJoin base_dir [series_dir, "Season ".toList ++ fmt02 sn],
       series_dir ++ " - S".toList ++ fmt02 sn ++ 'E' :: fmt02 ep ++
         " - ".toList ++ sanitize_filename video.title)
  | _, _, _ =>
      (pathJoin base_dir [series_dir], sanitize_filename video.title)

/-- The video of `TestPlexPathGeneration.test_episode_path_generation`. -/
def onlyConnectVideo : YouTubeVideo :=
  { video_id := "test".toList
    title := "Only Connect - Series 21 - Episode 3".toList
    publishedY := 2024, publishedM := 8, publishedD := 4
    description := []
    duration := []
    view_count := 0
    channel_title := "Wheels on Genius".toList }

/-- The `upload_window_days` field constraint of `FiltersConfig`
(`Field(default=7, ge=1)`): a value is accepted by configuration
validation iff it is at least 1. -/
def uploadWindowDaysValid (n : Int) : Bool := 1 ≤ n

/-- `VideoFilter.filter_by_upload_date`, with time modelled as seconds on
an integer line: a non-positive window returns the list unchanged,
otherwise keep the videos published at or after `now` minus the window.
The video's `published_datetime` is abstracted as the extra argument
`publishedAt`, a timestamp function on videos. -/
def filter_by_upload_date (upload_window_days : Int) (now : Int)
    (publishedAt : YouTubeVideo → Int) (videos : List YouTubeVideo) :
    List YouTubeVideo :=
  if upload_window_days ≤ 0 then videos
  else
    let cutoff := now - upload_window_days * 86400
    videos.filter (fun v => decide (cutoff ≤ publishedAt v))

/-- `VideoFilter.filter_by_duration`: with no bound configured, return the
list unchanged; otherwise keep each video whose duration is unknown, or
known and neither below the configured minimum nor above the configured
maximum. -/
def filter_by_duration (min_duration_minutes max_duration_minutes : Option Int)
    (videos : List YouTubeVideo) : List YouTubeVideo :=
  if min_duration_minutes = none ∧ max_duration_minutes = none then videos
  else
    videos.filter (fun v =>
      match duration_minutes v.duration with
      | none => true
      | some d =>
          (match min_duration_minutes with
           | some m => !decide ((d : Int) < m)
           | none => true) &&
          (match max_duration_minutes with
           | some m => !decide ((d : Int) > m)
           | none => true))

/-- Zero-padded four-digit year, `strftime('%Y')` for years 1000–9999. -/
def fmt04 (n : Nat) : List Char :=
  if n < 10 then '0' :: '0' :: '0' :: Nat.toDigits 10 n
  else if n < 100 then '0' :: '0' :: Nat.toDigits 10 n
  else if n < 1000 then '0' :: Nat.toDigits 10 n
  else Nat.toDigits 10 n

/-- `published_datetime.strftime('%Y-%m-%d')`: date-only ISO-8601. -/
def fmtYmd (y m d : Nat) : List Char :=
  fmt04 y ++ '-' :: fmt02 m ++ '-' :: fmt02 d

/-- The NFO document text built by `DownloadManager._create_nfo_file` is
the exact f-string of the source, as a concatenation of its literal
fragments and interpolated fields (`nfoContent` below).
`video.duration_minutes or 0` agrees with `getD 0` because Python `or`
replaces both `None` and `0` by `0`.  This is the XML prologue up to the
first tag. -/
def nfoHeader : List Char :=
  "<?xml version=\"1.0\" encoding=\"UTF-8\" standalone=\"yes\"?>\n<episodedetails>\n    ".toList

/-- The four-space indentation between consecutive NFO lines. -/
def nfoSep : List Char := "\n    ".toList

/-- The closing line of the NFO document. -/
def nfoTail : List Char := "\n</episodedetails>".toList

/-- The NFO document body proper, continuing the doc comment above:
each line of the source f-string in order. -/
def nfoContent (video : YouTubeVideo) : List Char :=
  nfoHeader ++
  ("<title>".toList ++ video.title ++ "</title>".toList) ++
  nfoSep ++
  ("<plot>".toList ++ video.description.take 500 ++ "...</plot>".toList) ++
  nfoSep ++
  ("<aired>".toList ++ fmtYmd video.publishedY video.publishedM video.publishedD ++ "</aired>".toList) ++
  nfoSep ++
  "<studio>YouTube</studio>".toList ++
  nfoSep ++
  "<tag>YouTube</tag>".toList ++
  nfoSep ++
  ("<uniqueid type=\"youtube\">".toList ++ video.video_id ++ "</uniqueid>".toList) ++
  nfoSep ++
  ("<runtime>".toList ++ Nat.toDigits 10 ((duration_minutes video.duration).getD 0) ++ "</runtime>".toList) ++
  nfoTail

/-- `DownloadManager._create_nfo_file` up to the filesystem write: `none`
when `generate_metadata` is disabled, otherwise the NFO text. -/
def create_nfo_file (generate_metadata : Bool) (video : YouTubeVideo) :
    Option (List Char) :=
  if generate_metadata then some (nfoContent video) else none

/-- `Path(video_path).with_suffix('.nfo')`: replace the extension of the
final path component by `.nfo`, or append `.nfo` when the final component
has no extension (no dot, or a dot only at its first or last position).
The empty-name error cases of `pathlib` are outside every claim. -/
def withSuffixNfo (p : List Char) : List Char :=
  let r := p.reverse
  let rname := r.takeWhile (fun c => c ≠ '/')
  let rdir := r.dropWhile (fun c => c ≠ '/')
  let rext := rname.takeWhile (fun c => c ≠ '.')
  match rname.dropWhile (fun c => c ≠ '.') with
  | '.' :: s =>
      if s = [] ∨ rext = [] then rdir.reverse ++ rname.reverse ++ ".nfo".toList
      else rdir.reverse ++ s.reverse ++ ".nfo".toList
  | _ => rdir.reverse ++ rname.reverse ++ ".nfo".toList

/-- The shape `<X> S<D>E<D2>` of pattern 1, as a title decomposition:
`X` is nonempty text without a newline (it must be matchable by `.+?`),
`w` a nonempty whitespace separator, `sC`/`eC` the `S`/`E` letters up to
ASCII case, `D`/`E2` nonempty digit strings, and `rest` arbitrary text not
starting with a digit (a leading digit would be absorbed into the episode
number by the greedy `(\d+)`). -/
def SEParts (X w : List Char) (sC : Char) (D : List Char) (eC : Char)
    (E2 rest : List Char) : Prop :=
  X ≠ [] ∧ (∀ c ∈ X, c ≠ '\n') ∧
  w ≠ [] ∧ (∀ c ∈ w, pySpace c = true) ∧
  lowerChar sC = 's' ∧
  D ≠ [] ∧ (∀ c ∈ D, pyDigit c = true) ∧
  lowerChar eC = 'e' ∧
  E2 ≠ [] ∧ (∀ c ∈ E2, pyDigit c = true) ∧
  (∀ c, rest.head? = some c → pyDigit c = false)

instance (X w : List Char) (sC : Char) (D : List Char) (eC : Char)
    (E2 rest : List Char) : Decidable (SEParts X w sC D eC E2 rest) := by
  unfold SEParts; infer_instance

/-- Reassemble a title from an `S<D>E<D2>` decomposition. -/
def mkSE (X w : List Char) (sC : Char) (D : List Char) (eC : Char)
    (E2 rest : List Char) : List Char :=
  X ++ (w ++ sC :: (D ++ eC :: (E2 ++ rest)))

/-- Number of `(\d+)` capture groups in a pattern tail. -/
def numCaps : List Tok → Nat
  | [] => 0
  | Tok.cap :: ts => numCaps ts + 1
  | _ :: ts => numCaps ts

/-- No two adjacent space characters. -/
def noDoubleSpace : List Char → Bool
  | a :: b :: t => !(a == ' ' && b == ' ') && noDoubleSpace (b :: t)
  | _ => true

/-- A string that `sanitize_filename` leaves unchanged, formalising the
claim's "already clean": every character survives both removal passes
(alphanumeric, underscore, space, hyphen, period, parenthesis), the only
whitespace is a single space at a time — whitespace runs, and any
tab-like character, collapse to one plain space — no leading or trailing
space, and length at most 200. -/
def cleanFor (l : List Char) : Bool :=
  l.all (fun c => pyWord c || c == ' ' || c == '-' || c == '.' || c == '(' || c == ')') &&
  noDoubleSpace l &&
  (match l.head? with | some c => !(c == ' ') | none => true) &&
  (match l.getLast? with | some c => !(c == ' ') | none => true) &&
  decide (l.length ≤ 200)

/-- `sub` occurs contiguously inside `l`. -/
def containsSub (l sub : List Char) : Prop :=
  ∃ a b, l = a ++ sub ++ b

/-- Render one optional `(?:(\d+)X)?` component of an ISO-8601 duration. -/
def optComp (o : Option (List Char)) (c : Char) : List Char :=
  match o with
  | none => []
  | some ds => ds ++ [c]

/-- Build an ISO-8601 duration string `PT(h)H(m)M(s)S`, each component
optional. -/
def mkDuration (H M S : Option (List Char)) : List Char :=
  'P' :: 'T' :: (optComp H 'H' ++ (optComp M 'M' ++ optComp S 'S'))

/-- Numeric value of an optional digit-string component (`int(g or 0)`). -/
def valOf (o : Option (List Char)) : Nat :=
  match o with
  | none => 0
  | some ds => natOfDigits ds

/-- The video of `TestPlexPathGeneration.test_fallback_to_channel_name`. -/
def randomTitleVideo : YouTubeVideo :=
  { video_id := "test".toList
    title := "Random Video Title".toList
    publishedY := 2024, publishedM := 8, publishedD := 4
    description := []
    duration := []
    view_count := 0
    channel_title := "Test Channel".toList }

/-- A video with a known 7-minute duration, for filter witnesses. -/
def sevenMinVideo : YouTubeVideo :=
  { randomTitleVideo with video_id := "seven".toList, duration := "PT7M".toList }

/-- A video with an unknown duration, for filter witnesses. -/
def unknownDurVideo : YouTubeVideo :=
  { randomTitleVideo with video_id := "unk".toList, duration := [] }

/-- A video with a known 30-minute duration, for filter witnesses. -/
def thirtyMinVideo : YouTubeVideo :=
  { randomTitleVideo with video_id := "thirty".toList, duration := "PT30M".toList }

/-- A well-formed optional duration component: absent, or a nonempty
digit string. -/
def goodComp : Option (List Char) → Prop
  | none => True
  | some ds => ds ≠ [] ∧ ∀ c ∈ ds, pyDigit c = true

instance (o : Option (List Char)) : Decidable (goodComp o) := by
  unfold goodComp
  cases o <;> infer_instance

lemma takeWhile_append_span {p : Char → Bool} :
    ∀ {A B : List Char}, (∀ c ∈ A, p c = true) →
      (∀ c, B.head? = some c → p c = false) →
      (A ++ B).takeWhile p = A ∧ (A ++ B).dropWhile p = B
  | [], B, _, hB => by
      cases B with
      | nil => simp
      | cons b bs =>
          have hb := hB b rfl
          simp [List.takeWhile, List.dropWhile, hb]
  | a :: as, B, hA, hB => by
      have ha : p a = true := hA a (by simp)
      have ih := takeWhile_append_span (p := p) (A := as) (B := B)
        (fun c hc => hA c (by simp [hc])) hB
      simp [List.takeWhile, List.dropWhile, ha, ih.1, ih.2]

lemma mem_of_takeWhile {p : Char → Bool} :
    ∀ {l : List Char} {c : Char}, c ∈ l.takeWhile p → p c = true := by
  intro l
  induction l with
  | nil => intro c hc; simp [List.takeWhile] at hc
  | cons a t ih =>
      intro c hc
      by_cases ha : p a
      · simp [List.takeWhile, ha] at hc
        rcases hc with hc | hc
        · exact hc ▸ ha
        · exact ih hc
      · simp [List.takeWhile, ha] at hc

lemma head_dropWhile {p : Char → Bool} :
    ∀ {l : List Char} {c : Char}, (l.dropWhile p).head? = some c → p c = false := by
  intro l
  induction l with
  | nil => intro c hc; simp [List.dropWhile] at hc
  | cons a t ih =>
      intro c hc
      by_cases ha : p a
      · exact ih (by simpa [List.dropWhile, ha] using hc)
      · simp [List.dropWhile, ha] at hc
        simpa [← hc] using Bool.of_not_eq_true ha

lemma pySpace_lowerChar {c : Char} (h : pySpace c = true) : lowerChar c = c := by
  simp only [pySpace, Bool.or_eq_true, beq_iff_eq] at h
  rcases h with ((((h | h) | h) | h) | h) | h <;> subst h <;> decide

lemma pyDigit_lowerChar {c : Char} (h : pyDigit c = true) : lowerChar c = c := by
  simp only [pyDigit, Bool.and_eq_true, decide_eq_true_eq] at h
  unfold lowerChar
  split
  · omega
  · rfl

lemma not_space_of_lower_s {c : Char} (h : lowerChar c = 's') : pySpace c = false := by
  by_contra hc
  have hsp : pySpace c = true := by
    cases hps : pySpace c
    · exact absurd hps hc
    · rfl
  have := pySpace_lowerChar hsp
  rw [this] at h
  subst h
  simp [pySpace] at hsp

lemma not_digit_of_lower_e {c : Char} (h : lowerChar c = 'e') : pyDigit c = false := by
  by_contra hc
  have hd : pyDigit c = true := by
    cases hps : pyDigit c
    · exact absurd hps hc
    · rfl
  have := pyDigit_lowerChar hd
  rw [this] at h
  subst h
  simp [pyDigit] at hd

lemma stripCI_single_some {a : Char} {s r : List Char}
    (h : stripCI [a] s = some r) : ∃ c, s = c :: r ∧ lowerChar c = lowerChar a := by
  cases s with
  | nil => simp [stripCI] at h
  | cons c cs =>
      by_cases hc : lowerChar c = lowerChar a
      · refine ⟨c, ?_, hc⟩
        simp [stripCI, hc] at h
        rw [h]
      · simp [stripCI, hc] at h

lemma stripCI_single_of {a c : Char} {r : List Char}
    (h : lowerChar c = lowerChar a) : stripCI [a] (c :: r) = some r := by
  simp [stripCI, h]

lemma matchTail_len : ∀ {ts : List Tok} {s : List Char} {caps : List (List Char)},
    matchTail ts s = some caps → caps.length = numCaps ts := by
  intro ts
  induction ts with
  | nil =>
      intro s caps h
      simp [matchTail] at h
      simp [← h, numCaps]
  | cons tok ts ih =>
      intro s caps h
      cases tok with
      | ws =>
          simp only [matchTail] at h
          split at h
          · exact absurd h (by simp)
          · exact ih h
      | lit l =>
          simp only [matchTail] at h
          cases hst : stripCI l s with
          | none => rw [hst] at h; exact absurd h (by simp)
          | some r => rw [hst] at h; exact ih h
      | cap =>
          simp only [matchTail] at h
          split at h
          · exact absurd h (by simp)
          · obtain ⟨caps1, h1, h2⟩ := Option.map_eq_some'.mp h
            subst h2
            simp [numCaps, ih h1]
      | eos =>
          simp only [matchTail] at h
          split at h
          · have := ih h
            simpa [numCaps] using this
          · exact absurd h (by simp)

lemma tryFrom_sound : ∀ {r : List Char} {ts : List Tok} {g0 g1 : List Char}
    {caps : List (List Char)},
    tryFrom ts g0 r = some (g1, caps) →
    ∃ A B, r = A ++ B ∧ A ≠ [] ∧ (∀ c ∈ A, c ≠ '\n') ∧ g1 = g0 ++ A ∧
      matchTail ts B = some caps := by
  intro r
  induction r with
  | nil => intro ts g0 g1 caps h; simp [tryFrom] at h
  | cons c rest ih =>
      intro ts g0 g1 caps h
      simp only [tryFrom] at h
      split at h
      · exact absurd h (by simp)
      · rename_i hnl
        cases hmt : matchTail ts rest with
        | some caps0 =>
            rw [hmt] at h
            simp at h
            refine ⟨[c], rest, rfl, by simp, ?_, ?_, ?_⟩
            · intro x hx; simp at hx; subst hx; exact hnl
            · simp [← h.1]
            · rw [hmt, h.2]
        | none =>
            rw [hmt] at h
            obtain ⟨A, B, hAB, hAne, hAnl, hg, hm⟩ := ih h
            refine ⟨c :: A, B, by simp [hAB], by simp, ?_, ?_, hm⟩
            · intro x hx
              rcases List.mem_cons.mp hx with hx | hx
              · subst hx; exact hnl
              · exact hAnl x hx
            · simp [hg]

lemma tryFrom_cons (ts : List Tok) (g1 : List Char) (c : Char) (rest : List Char) :
    tryFrom ts g1 (c :: rest) =
      if c = '\n' then none
      else
        match matchTail ts rest with
        | some caps => some (g1 ++ [c], caps)
        | none => tryFrom ts (g1 ++ [c]) rest := rfl

lemma tryFrom_isSome : ∀ {A : List Char} {ts : List Tok} {B g0 : List Char}
    {caps : List (List Char)},
    A ≠ [] → (∀ c ∈ A, c ≠ '\n') → matchTail ts B = some caps →
    ∃ res, tryFrom ts g0 (A ++ B) = some res := by
  intro A
  induction A with
  | nil => intro ts B g0 caps hne; exact absurd rfl hne
  | cons a A ih =>
      intro ts B g0 caps _ hnl hmt
      have ha : a ≠ '\n' := hnl a (by simp)
      cases A with
      | nil =>
          refine ⟨(g0 ++ [a], caps), ?_⟩
          rw [List.cons_append, List.nil_append, tryFrom_cons, if_neg ha, hmt]
      | cons a2 A2 =>
          have key : tryFrom ts g0 ((a :: a2 :: A2) ++ B) =
              (match matchTail ts ((a2 :: A2) ++ B) with
               | some caps2 => some (g0 ++ [a], caps2)
               | none => tryFrom ts (g0 ++ [a]) ((a2 :: A2) ++ B)) := by
            rw [List.cons_append, tryFrom_cons, if_neg ha]
          cases hmt2 : matchTail ts ((a2 :: A2) ++ B) with
          | some caps2 =>
              refine ⟨(g0 ++ [a], caps2), ?_⟩
              rw [key, hmt2]
          | none =>
              obtain ⟨res, hres⟩ :=
                @ih ts B (g0 ++ [a]) caps (by simp) (fun c hc => hnl c (by simp [hc])) hmt
              refine ⟨res, ?_⟩
              rw [key, hmt2]
              exact hres

lemma searchPat_of_tryFrom {ts : List Tok} {t : List Char}
    {res : List Char × List (List Char)}
    (h : tryFrom ts [] t = some res) : searchPat ts t = some res := by
  cases t with
  | nil => simp [tryFrom] at h
  | cons c s => simp only [searchPat]; rw [h]

lemma searchPat_sound : ∀ {t : List Char} {ts : List Tok} {g1 : List Char}
    {caps : List (List Char)},
    searchPat ts t = some (g1, caps) →
    ∃ P A B, t = P ++ A ++ B ∧ A ≠ [] ∧ (∀ c ∈ A, c ≠ '\n') ∧ g1 = A ∧
      matchTail ts B = some caps := by
  intro t
  induction t with
  | nil => intro ts g1 caps h; simp [searchPat] at h
  | cons c s ih =>
      intro ts g1 caps h
      simp only [searchPat] at h
      cases htf : tryFrom ts [] (c :: s) with
      | some res =>
          rw [htf] at h
          have hres : res = (g1, caps) := by simpa using h
          subst hres
          obtain ⟨A, B, hAB, hAne, hAnl, hg, hm⟩ := tryFrom_sound htf
          exact ⟨[], A, B, by simpa using hAB, hAne, hAnl, by simpa using hg, hm⟩
      | none =>
          rw [htf] at h
          obtain ⟨P, A, B, hPAB, hAne, hAnl, hg, hm⟩ := ih h
          exact ⟨c :: P, A, B, by simp [hPAB], hAne, hAnl, hg, hm⟩

lemma matchTail_ws (ts : List Tok) (s : List Char) :
    matchTail (Tok.ws :: ts) s =
      if s.takeWhile pySpace = [] then none
      else matchTail ts (s.dropWhile pySpace) := rfl

lemma matchTail_lit (l : List Char) (ts : List Tok) (s : List Char) :
    matchTail (Tok.lit l :: ts) s =
      match stripCI l s with
      | some r => matchTail ts r
      | none => none := rfl

lemma matchTail_cap (ts : List Tok) (s : List Char) :
    matchTail (Tok.cap :: ts) s =
      if s.takeWhile pyDigit = [] then none
      else (matchTail ts (s.dropWhile pyDigit)).map (s.takeWhile pyDigit :: ·) := rfl

lemma matchTail_pat1_of (w : List Char) (sC : Char) (D : List Char) (eC : Char)
    (E2 rest : List Char)
    (hw : w ≠ []) (hwsp : ∀ c ∈ w, pySpace c = true) (hsc : lowerChar sC = 's')
    (hD : D ≠ []) (hDd : ∀ c ∈ D, pyDigit c = true) (hec : lowerChar eC = 'e')
    (hE : E2 ≠ []) (hEd : ∀ c ∈ E2, pyDigit c = true)
    (hrest : ∀ c, rest.head? = some c → pyDigit c = false) :
    matchTail pat1 (w ++ sC :: (D ++ eC :: (E2 ++ rest))) = some [D, E2] := by
  have st4 : matchTail [Tok.cap] (E2 ++ rest) = some [E2] := by
    have hspan := takeWhile_append_span (p := pyDigit) (A := E2) (B := rest) hEd hrest
    rw [matchTail_cap, hspan.1, hspan.2, if_neg hE]
    rfl
  have st3 : matchTail [Tok.lit ['E'], Tok.cap] (eC :: (E2 ++ rest)) = some [E2] := by
    rw [matchTail_lit, stripCI_single_of (by rw [hec]; decide)]
    exact st4
  have st2 : matchTail [Tok.cap, Tok.lit ['E'], Tok.cap]
      (D ++ eC :: (E2 ++ rest)) = some [D, E2] := by
    have hspan := takeWhile_append_span (p := pyDigit) (A := D)
      (B := eC :: (E2 ++ rest)) hDd
      (fun c hc => by
        have hcc : eC = c := by simpa using hc
        rw [← hcc]; exact not_digit_of_lower_e hec)
    rw [matchTail_cap, hspan.1, hspan.2, if_neg hD, st3]
    rfl
  have st1 : matchTail [Tok.lit ['S'], Tok.cap, Tok.lit ['E'], Tok.cap]
      (sC :: (D ++ eC :: (E2 ++ rest))) = some [D, E2] := by
    rw [matchTail_lit, stripCI_single_of (by rw [hsc]; decide)]
    exact st2
  have hspan := takeWhile_append_span (p := pySpace) (A := w)
    (B := sC :: (D ++ eC :: (E2 ++ rest))) hwsp
    (fun c hc => by
      have hcc : sC = c := by simpa using hc
      rw [← hcc]; exact not_space_of_lower_s hsc)
  show matchTail (Tok.ws :: [Tok.lit ['S'], Tok.cap, Tok.lit ['E'], Tok.cap]) _ = _
  rw [matchTail_ws, hspan.1, hspan.2, if_neg hw]
  exact st1

lemma matchTail_pat1_inv {B : List Char} {caps : List (List Char)}
    (h : matchTail pat1 B = some caps) :
    ∃ w sC D eC E2 rest,
      B = w ++ sC :: (D ++ eC :: (E2 ++ rest)) ∧
      w ≠ [] ∧ (∀ c ∈ w, pySpace c = true) ∧ lowerChar sC = 's' ∧
      D ≠ [] ∧ (∀ c ∈ D, pyDigit c = true) ∧ lowerChar eC = 'e' ∧
      E2 ≠ [] ∧ (∀ c ∈ E2, pyDigit c = true) ∧
      (∀ c, rest.head? = some c → pyDigit c = false) ∧ caps = [D, E2] := by
  have h1 : matchTail (Tok.ws :: [Tok.lit ['S'], Tok.cap, Tok.lit ['E'], Tok.cap]) B
      = some caps := h
  rw [matchTail_ws] at h1
  split at h1
  · exact absurd h1 (by simp)
  · rename_i hwne
    have hBsplit : B = B.takeWhile pySpace ++ B.dropWhile pySpace :=
      (List.takeWhile_append_dropWhile pySpace B).symm
    have hwsp : ∀ c ∈ B.takeWhile pySpace, pySpace c = true :=
      fun c hc => mem_of_takeWhile hc
    rw [matchTail_lit] at h1
    cases hst : stripCI ['S'] (B.dropWhile pySpace) with
    | none => rw [hst] at h1; exact absurd h1 (by simp)
    | some B2 =>
        rw [hst] at h1
        obtain ⟨sC, hB1eq, hsc⟩ := stripCI_single_some hst
        have hsc2 : lowerChar sC = 's' := by rw [hsc]; decide
        have h2 : matchTail [Tok.cap, Tok.lit ['E'], Tok.cap] B2 = some caps := h1
        rw [matchTail_cap] at h2
        split at h2
        · exact absurd h2 (by simp)
        · rename_i hDne
          obtain ⟨caps1, hm1, hcap1⟩ := Option.map_eq_some'.mp h2
          have hB2split : B2 = B2.takeWhile pyDigit ++ B2.dropWhile pyDigit :=
            (List.takeWhile_append_dropWhile pyDigit B2).symm
          have hDd : ∀ c ∈ B2.takeWhile pyDigit, pyDigit c = true :=
            fun c hc => mem_of_takeWhile hc
          rw [matchTail_lit] at hm1
          cases hst2 : stripCI ['E'] (B2.dropWhile pyDigit) with
          | none => rw [hst2] at hm1; exact absurd hm1 (by simp)
          | some B4 =>
              rw [hst2] at hm1
              obtain ⟨eC, hB3eq, hec⟩ := stripCI_single_some hst2
              have hec2 : lowerChar eC = 'e' := by rw [hec]; decide
              have h3 : matchTail [Tok.cap] B4 = some caps1 := hm1
              rw [matchTail_cap] at h3
              split at h3
              · exact absurd h3 (by simp)
              · rename_i hEne
                obtain ⟨caps2, hm2, hcap2⟩ := Option.map_eq_some'.mp h3
                have hB4split : B4 = B4.takeWhile pyDigit ++ B4.dropWhile pyDigit :=
                  (List.takeWhile_append_dropWhile pyDigit B4).symm
                have hEd : ∀ c ∈ B4.takeWhile pyDigit, pyDigit c = true :=
                  fun c hc => mem_of_takeWhile hc
                have hcaps2 : caps2 = [] := by
                  have hx : some ([] : List (List Char)) = some caps2 := hm2
                  simpa using hx.symm
                refine ⟨B.takeWhile pySpace, sC, B2.takeWhile pyDigit, eC,
                  B4.takeWhile pyDigit, B4.dropWhile pyDigit, ?_, hwne, hwsp, hsc2,
                  hDne, hDd, hec2, hEne, hEd, ?_, ?_⟩
                · have e0 := hBsplit
                  rw [hB1eq] at e0
                  have e1 := hB2split
                  rw [hB3eq] at e1
                  conv_lhs => rw [e0]
                  conv_lhs => rw [e1]
                  conv_lhs => rw [hB4split]
                · intro c hc
                  exact head_dropWhile hc
                · rw [← hcap1, ← hcap2, hcaps2]

lemma extractGo_cons_three {p : List Tok} {ps : List (List Tok)}
    {t g1 d1 d2 : List Char}
    (h : searchPat p t = some (g1, [d1, d2])) :
    extractGo (p :: ps) t =
      (some (pyStrip g1), some (natOfDigits d1), some (natOfDigits d2)) := by
  unfold extractGo
  rw [h]

lemma extractGo_cons_two {p : List Tok} {ps : List (List Tok)} {t g1 d : List Char}
    (h : searchPat p t = some (g1, [d])) :
    extractGo (p :: ps) t = (some (pyStrip g1), some 1, some (natOfDigits d)) := by
  unfold extractGo
  rw [h]

lemma extractGo_cons_none {p : List Tok} {ps : List (List Tok)} {t : List Char}
    (h : searchPat p t = none) :
    extractGo (p :: ps) t = extractGo ps t := by
  conv_lhs => unfold extractGo
  rw [h]

lemma searchPat_len {ts : List Tok} {t g1 : List Char} {caps : List (List Char)}
    (h : searchPat ts t = some (g1, caps)) : caps.length = numCaps ts := by
  obtain ⟨P, A, B, _, _, _, _, hm⟩ := searchPat_sound h
  exact matchTail_len hm

/-- C1.  Every title of the form `<X> S<D>E<D2>` (nonempty digit strings of
any width, the `S`/`E` letters matched case-insensitively) is resolved by
pattern 1, before any later rule: `extract_episode_info` returns the
series text of an `S<D>E<D2>` decomposition of the title, stripped of
surrounding whitespace, with the two digit captures parsed base-10 as
season and episode; in particular
`"University Challenge S55E04 - Newcastle v. Edinburgh"` parses to
`("University Challenge", 55, 4)` rather than any trailing-number parse. -/
theorem extract_rule1_correct :
    (∀ t : List Char,
      (∃ X w sC D eC E2 rest,
        t = mkSE X w sC D eC E2 rest ∧ SEParts X w sC D eC E2 rest) →
      ∃ X w sC D eC E2 rest,
        t = mkSE X w sC D eC E2 rest ∧ SEParts X w sC D eC E2 rest ∧
        extract_episode_info t =
          (some (pyStrip X), some (natOfDigits D), some (natOfDigits E2)))
    ∧ extract_episode_info
        "University Challenge S55E04 - Newcastle v. Edinburgh".toList
      = (some "University Challenge".toList, some 55, some 4) := by
  constructor
  · rintro t ⟨X, w, sC, D, eC, E2, rest, ht,
      hX, hXnl, hw, hwsp, hsc, hD, hDd, hec, hE2, hEd, hrest⟩
    have hmt := matchTail_pat1_of w sC D eC E2 rest hw hwsp hsc hD hDd hec hE2 hEd hrest
    have hform : t = X ++ (w ++ sC :: (D ++ eC :: (E2 ++ rest))) := ht
    obtain ⟨res, hres⟩ :=
      @tryFrom_isSome X pat1 (w ++ sC :: (D ++ eC :: (E2 ++ rest))) [] [D, E2]
        hX hXnl hmt
    obtain ⟨g1, caps⟩ := res
    have hsearch : searchPat pat1 t = some (g1, caps) := by
      rw [hform]; exact searchPat_of_tryFrom hres
    obtain ⟨A, Bm, hABm, hAne, hAnl, hg, hmB⟩ := tryFrom_sound hres
    have hg1 : g1 = A := by simpa using hg
    obtain ⟨w2, sC2, D2, eC2, E22, rest2, hBeq, hw2, hwsp2, hsc2, hD2, hDd2, hec2,
      hE22, hEd2, hrest2, hcapsEq⟩ := matchTail_pat1_inv hmB
    refine ⟨A, w2, sC2, D2, eC2, E22, rest2, ?_,
      ⟨hAne, hAnl, hw2, hwsp2, hsc2, hD2, hDd2, hec2, hE22, hEd2, hrest2⟩, ?_⟩
    · show t = A ++ (w2 ++ sC2 :: (D2 ++ eC2 :: (E22 ++ rest2)))
      rw [hform, hABm, hBeq]
    · rw [hg1, hcapsEq] at hsearch
      show extractGo (pat1 :: [pat2, pat3, pat4, pat5, pat6, pat7, pat8]) t = _
      rw [extractGo_cons_three hsearch]
  · decide

/-- Witness for C1 at the repository's own test title
`"Game of Thrones S01E01"`. -/
theorem extract_rule1_correct_witness :
    (∃ X w sC D eC E2 rest,
      "Game of Thrones S01E01".toList = mkSE X w sC D eC E2 rest ∧
      SEParts X w sC D eC E2 rest) ∧
    (∃ X w sC D eC E2 rest,
      "Game of Thrones S01E01".toList = mkSE X w sC D eC E2 rest ∧
      SEParts X w sC D eC E2 rest ∧
      extract_episode_info "Game of Thrones S01E01".toList =
        (some (pyStrip X), some (natOfDigits D), some (natOfDigits E2))) := by
  have hdec : ∃ X w sC D eC E2 rest,
      "Game of Thrones S01E01".toList = mkSE X w sC D eC E2 rest ∧
      SEParts X w sC D eC E2 rest :=
    ⟨"Game of Thrones".toList, [' '], 'S', ['0', '1'], 'E', ['0', '1'], [],
      by decide, by decide⟩
  exact ⟨hdec, extract_rule1_correct.1 _ hdec⟩

/-- C7.  Whenever none of the first five patterns matches and one of the
two-capture rules does — `<series> - Episode <n>`, `<series> Episode <n>`
or the bare trailing-number rule `<series> <n>$` — the parser defaults the
season to 1 and takes the single captured number as the episode; in
particular `"Some Show Episode 5"` parses to `("Some Show", 1, 5)` and the
year-ending title `"Daily Show 2024"` parses to `("Daily Show", 1, 2024)`. -/
theorem episode_only_defaults_season_one :
    (∀ (t g1 : List Char) (caps : List (List Char)),
      searchPat pat1 t = none → searchPat pat2 t = none → searchPat pat3 t = none →
      searchPat pat4 t = none → searchPat pat5 t = none →
      (searchPat pat6 t = some (g1, caps) ∨
       (searchPat pat6 t = none ∧ searchPat pat7 t = some (g1, caps)) ∨
       (searchPat pat6 t = none ∧ searchPat pat7 t = none ∧
        searchPat pat8 t = some (g1, caps))) →
      ∃ d, caps = [d] ∧
        extract_episode_info t = (some (pyStrip g1), some 1, some (natOfDigits d)))
    ∧ extract_episode_info "Some Show Episode 5".toList
        = (some "Some Show".toList, some 1, some 5)
    ∧ extract_episode_info "Daily Show 2024".toList
        = (some "Daily Show".toList, some 1, some 2024) := by
  refine ⟨?_, by decide, by decide⟩
  intro t g1 caps h1 h2 h3 h4 h5 h678
  have hgo : extract_episode_info t = extractGo [pat6, pat7, pat8] t := by
    show extractGo (pat1 :: pat2 :: pat3 :: pat4 :: pat5 :: [pat6, pat7, pat8]) t = _
    rw [extractGo_cons_none h1, extractGo_cons_none h2, extractGo_cons_none h3,
      extractGo_cons_none h4, extractGo_cons_none h5]
  have single : ∀ {p : List Tok}, numCaps p = 1 →
      searchPat p t = some (g1, caps) → ∃ d, caps = [d] := by
    intro p hp hs
    have hlen : caps.length = 1 := (searchPat_len hs).trans hp
    cases caps with
    | nil => simp at hlen
    | cons d rest =>
        cases rest with
        | nil => exact ⟨d, rfl⟩
        | cons e r => simp at hlen
  rcases h678 with h6 | ⟨h6, h7⟩ | ⟨h6, h7, h8⟩
  · obtain ⟨d, hd⟩ := single (p := pat6) rfl h6
    subst hd
    exact ⟨d, rfl, by rw [hgo]; exact extractGo_cons_two h6⟩
  · obtain ⟨d, hd⟩ := single (p := pat7) rfl h7
    subst hd
    refine ⟨d, rfl, ?_⟩
    rw [hgo, extractGo_cons_none h6]
    exact extractGo_cons_two h7
  · obtain ⟨d, hd⟩ := single (p := pat8) rfl h8
    subst hd
    refine ⟨d, rfl, ?_⟩
    rw [hgo, extractGo_cons_none h6, extractGo_cons_none h7]
    exact extractGo_cons_two h8

/-- Witness for C7 at `"Some Show Episode 5"`: patterns 1–6 fail, pattern 7
matches with group 1 `"Some Show"` and capture `"5"`, and the parser
returns season 1. -/
theorem episode_only_defaults_season_one_witness :
    (searchPat pat1 "Some Show Episode 5".toList = none ∧
     searchPat pat2 "Some Show Episode 5".toList = none ∧
     searchPat pat3 "Some Show Episode 5".toList = none ∧
     searchPat pat4 "Some Show Episode 5".toList = none ∧
     searchPat pat5 "Some Show Episode 5".toList = none ∧
     searchPat pat6 "Some Show Episode 5".toList = none ∧
     searchPat pat7 "Some Show Episode 5".toList
       = some ("Some Show".toList, ["5".toList])) ∧
    (∃ d, ["5".toList] = [d] ∧
      extract_episode_info "Some Show Episode 5".toList =
        (some (pyStrip "Some Show".toList), some 1, some (natOfDigits d))) := by
  refine ⟨⟨by decide, by decide, by decide, by decide, by decide, by decide, by decide⟩, ?_⟩
  exact episode_only_defaults_season_one.1 "Some Show Episode 5".toList
    "Some Show".toList ["5".toList] (by decide) (by decide) (by decide) (by decide)
    (by decide) (Or.inr (Or.inl ⟨by decide, by decide⟩))

/-- C5 counterexample.  On `"QI - Series P - Episode 12"` the dash rule
`<series> - Episode <n>` (pattern 6) already matches, with group 1
`"QI - Series P"` and capture `"12"`; since the first matching rule wins,
the bare `<series> Episode <n>` rule (pattern 7) is never the one that
resolves this title, contrary to the claim. -/
theorem qi_title_matches_dash_episode_rule :
    searchPat pat6 "QI - Series P - Episode 12".toList
      = some ("QI - Series P".toList, ["12".toList]) := by decide

/-- C5 amended.  A letter after `"Series"` (here `"Series P"`) fails the
numeric captures of patterns 1–5; the title is instead resolved by
pattern 6 (`<series> - Episode <n>`, one rule earlier than the claimed
bare-`Episode` rule 7), returning season 1, episode 12, and a series name
that still contains the literal `"- Series P"` fragment. -/
theorem qi_series_p_resolved_by_rule6 :
    searchPat pat1 "QI - Series P - Episode 12".toList = none ∧
    searchPat pat2 "QI - Series P - Episode 12".toList = none ∧
    searchPat pat3 "QI - Series P - Episode 12".toList = none ∧
    searchPat pat4 "QI - Series P - Episode 12".toList = none ∧
    searchPat pat5 "QI - Series P - Episode 12".toList = none ∧
    searchPat pat6 "QI - Series P - Episode 12".toList
      = some ("QI - Series P".toList, ["12".toList]) ∧
    extract_episode_info "QI - Series P - Episode 12".toList
      = (some "QI - Series P".toList, some 1, some 12) ∧
    "QI - Series P".toList = "QI ".toList ++ "- Series P".toList := by
  refine ⟨by decide, by decide, by decide, by decide, by decide, by decide,
    by decide, by decide⟩

/-- C6.  A title matched by no pattern makes `extract_episode_info` return
`None` for all three fields — e.g. `"Random Video Title"` — and
`generate_plex_path` then falls back to flat channel organisation: the
series directory is the sanitized channel title, or the literal
`"Unknown Channel"` when the channel title is empty, and the filename is
just the sanitized original title, with no season or episode parts. -/
theorem no_match_falls_back_to_channel :
    (∀ t : List Char, (∀ p ∈ patternList, searchPat p t = none) →
        extract_episode_info t = (none, none, none)) ∧
    (∀ (v : YouTubeVideo) (base : List Char) (org : Bool),
        extract_episode_info v.title = (none, none, none) →
        generate_plex_path v base org =
          (pathJoin base [sanitize_filename
              (if v.channel_title = [] then "Unknown Channel".toList
               else v.channel_title)],
           sanitize_filename v.title)) ∧
    extract_episode_info "Random Video Title".toList = (none, none, none) := by
  refine ⟨?_, ?_, by decide⟩
  · intro t hall
    have h1 := hall pat1 (by simp [patternList])
    have h2 := hall pat2 (by simp [patternList])
    have h3 := hall pat3 (by simp [patternList])
    have h4 := hall pat4 (by simp [patternList])
    have h5 := hall pat5 (by simp [patternList])
    have h6 := hall pat6 (by simp [patternList])
    have h7 := hall pat7 (by simp [patternList])
    have h8 := hall pat8 (by simp [patternList])
    show extractGo (pat1 :: pat2 :: pat3 :: pat4 :: pat5 :: pat6 :: pat7 :: pat8 :: []) t = _
    rw [extractGo_cons_none h1, extractGo_cons_none h2, extractGo_cons_none h3,
      extractGo_cons_none h4, extractGo_cons_none h5, extractGo_cons_none h6,
      extractGo_cons_none h7, extractGo_cons_none h8]
    rfl
  · intro v base org hext
    cases org <;> simp [generate_plex_path, hext]

/-- Witness for C6: `"Random Video Title"` with channel `"Test Channel"`
lands in the flat channel directory with the unchanged title, and the same
title with an empty channel label falls back to `"Unknown Channel"`. -/
theorem no_match_falls_back_to_channel_witness :
    extract_episode_info randomTitleVideo.title = (none, none, none) ∧
    generate_plex_path randomTitleVideo "/tmp".toList true =
      (pathJoin "/tmp".toList [sanitize_filename
          (if randomTitleVideo.channel_title = [] then "Unknown Channel".toList
           else randomTitleVideo.channel_title)],
       sanitize_filename randomTitleVideo.title) ∧
    generate_plex_path randomTitleVideo "/tmp".toList true =
      ("/tmp/Test Channel".toList, "Random Video Title".toList) := by
  refine ⟨by decide, ?_, by decide⟩
  exact no_match_falls_back_to_channel.2.1 randomTitleVideo "/tmp".toList true (by decide)

/-- C2.  When the title parses to `(series, season, episode)`:
with `organize_by_season` the directory is
`base/<sanitized series>/Season NN` and the filename stem is
`<sanitized series> - SNNEMM - <sanitized full title>` (two-digit
zero-padded numbers); without it, the directory is
`base/<sanitized series>` and the filename is just the sanitized title. -/
theorem plex_path_generation :
    ∀ (v : YouTubeVideo) (base s : List Char) (n e : Nat),
      extract_episode_info v.title = (some s, some n, some e) →
      generate_plex_path v base true =
        (pathJoin base [sanitize_filename s, "Season ".toList ++ fmt02 n],
         sanitize_filename s ++ " - S".toList ++ fmt02 n ++ 'E' :: fmt02 e ++
           " - ".toList ++ sanitize_filename v.title) ∧
      generate_plex_path v base false =
        (pathJoin base [sanitize_filename s], sanitize_filename v.title) := by
  intro v base s n e hext
  constructor <;> simp [generate_plex_path, hext]

/-- Witness for C2 at the repository's own path-generation test:
`"Only Connect - Series 21 - Episode 3"` under base `/tmp`. -/
theorem plex_path_generation_witness :
    extract_episode_info onlyConnectVideo.title
      = (some "Only Connect".toList, some 21, some 3) ∧
    generate_plex_path onlyConnectVideo "/tmp".toList true =
      (pathJoin "/tmp".toList
         [sanitize_filename "Only Connect".toList,
          "Season ".toList ++ fmt02 21],
       sanitize_filename "Only Connect".toList ++ " - S".toList ++ fmt02 21 ++
         'E' :: fmt02 3 ++ " - ".toList ++
         sanitize_filename onlyConnectVideo.title) ∧
    generate_plex_path onlyConnectVideo "/tmp".toList true =
      ("/tmp/Only Connect/Season 21".toList,
       "Only Connect - S21E03 - Only Connect - Series 21 - Episode 3".toList) := by
  refine ⟨by decide, ?_, by decide⟩
  exact (plex_path_generation onlyConnectVideo "/tmp".toList "Only Connect".toList
    21 3 (by decide)).1

/-- C4 counterexample.  `FiltersConfig` declares
`upload_window_days: int = Field(default=7, ge=1)`, so the value 0 is
rejected by configuration validation: 0 is not a valid recency-window
configuration value, contrary to the claim. -/
theorem upload_window_zero_invalid : uploadWindowDaysValid 0 = false := by decide

/-- C4 amended.  Configuration validation requires
`upload_window_days ≥ 1`, so 0 is rejected as a configuration value;
nevertheless the filter function itself treats any window at most 0 as a
no-op: `filter_by_upload_date` returns its input list unchanged whenever
`upload_window_days ≤ 0`. -/
theorem upload_window_nonpositive_noop :
    uploadWindowDaysValid 0 = false ∧
    ∀ (w now : Int) (publishedAt : YouTubeVideo → Int) (videos : List YouTubeVideo),
      w ≤ 0 → filter_by_upload_date w now publishedAt videos = videos := by
  refine ⟨by decide, ?_⟩
  intro w now publishedAt videos hw
  simp [filter_by_upload_date, hw]

/-- Witness for C4's amended statement at window 0. -/
theorem upload_window_nonpositive_noop_witness :
    (0 : Int) ≤ 0 ∧
    filter_by_upload_date 0 0 (fun _ => 0) [randomTitleVideo] = [randomTitleVideo] :=
  ⟨by decide,
   upload_window_nonpositive_noop.2 0 0 (fun _ => 0) [randomTitleVideo] (by decide)⟩

/-- C8.  With no duration bound configured `filter_by_duration` returns
its input unchanged; with at least one bound it keeps exactly the videos
whose duration is unknown, or known and at least the minimum (when set)
and at most the maximum (when set); in particular an unknown-duration
video is always kept. -/
theorem duration_filter_bounds :
    ∀ (minD maxD : Option Int) (videos : List YouTubeVideo),
      (minD = none ∧ maxD = none → filter_by_duration minD maxD videos = videos) ∧
      (¬(minD = none ∧ maxD = none) →
        filter_by_duration minD maxD videos = videos.filter (fun v =>
          match duration_minutes v.duration with
          | none => true
          | some d => decide ((∀ m, minD = some m → m ≤ (d : Int)) ∧
                              (∀ m, maxD = some m → (d : Int) ≤ m)))) ∧
      (∀ v ∈ videos, duration_minutes v.duration = none →
        v ∈ filter_by_duration minD maxD videos) := by
  intro minD maxD videos
  have hfilter : ¬(minD = none ∧ maxD = none) →
      filter_by_duration minD maxD videos = videos.filter (fun v =>
        match duration_minutes v.duration with
        | none => true
        | some d => decide ((∀ m, minD = some m → m ≤ (d : Int)) ∧
                            (∀ m, maxD = some m → (d : Int) ≤ m))) := by
    intro hne
    unfold filter_by_duration
    rw [if_neg hne]
    apply List.filter_congr
    intro v _
    cases hd : duration_minutes v.duration with
    | none => rfl
    | some d =>
        rcases minD with _ | m <;> rcases maxD with _ | M
        · exact absurd ⟨rfl, rfl⟩ hne
        all_goals simp only [gt_iff_lt, ← decide_not, Bool.true_and, Bool.and_true,
          ← Bool.decide_and, decide_eq_decide]
        all_goals simp only [Option.some.injEq, forall_eq_apply_imp_iff,
          forall_eq, forall_eq', reduceCtorEq, false_implies, forall_const, true_and, and_true]
        all_goals omega
  refine ⟨?_, hfilter, ?_⟩
  · rintro ⟨h1, h2⟩
    subst h1; subst h2
    simp [filter_by_duration]
  · intro v hv hd
    by_cases hcase : minD = none ∧ maxD = none
    · obtain ⟨h1, h2⟩ := hcase
      subst h1; subst h2
      simpa [filter_by_duration] using hv
    · rw [hfilter hcase]
      apply List.mem_filter.mpr
      refine ⟨hv, ?_⟩
      simp only [hd]

/-- Witness for C8 with bounds 5–10 minutes over a 7-minute, an
unknown-duration and a 30-minute video. -/
theorem duration_filter_bounds_witness :
    ¬((some (5 : Int)) = none ∧ (some (10 : Int)) = none) ∧
    filter_by_duration (some 5) (some 10)
        [sevenMinVideo, unknownDurVideo, thirtyMinVideo] =
      [sevenMinVideo, unknownDurVideo, thirtyMinVideo].filter (fun v =>
        match duration_minutes v.duration with
        | none => true
        | some d => decide ((∀ m, (some (5 : Int)) = some m → m ≤ (d : Int)) ∧
                            (∀ m, (some (10 : Int)) = some m → (d : Int) ≤ m))) ∧
    filter_by_duration (some 5) (some 10)
        [sevenMinVideo, unknownDurVideo, thirtyMinVideo] =
      [sevenMinVideo, unknownDurVideo] := by
  refine ⟨by simp, ?_, by decide⟩
  exact (duration_filter_bounds (some 5) (some 10)
    [sevenMinVideo, unknownDurVideo, thirtyMinVideo]).2.1 (by simp)

lemma optNumLit_hit (c : Char) {ds r : List Char}
    (hne : ds ≠ []) (hd : ∀ x ∈ ds, pyDigit x = true) (hc : pyDigit c = false) :
    optNumLit c (ds ++ c :: r) = (some ds, r) := by
  have hspan := takeWhile_append_span (p := pyDigit) (A := ds) (B := c :: r) hd
    (fun x hx => by
      have hcx : c = x := by simpa using hx
      rw [← hcx]; exact hc)
  unfold optNumLit
  rw [hspan.1, hspan.2, if_neg hne]
  simp

lemma optNumLit_missLit (c cl : Char) {ds r : List Char}
    (hne : ds ≠ []) (hd : ∀ x ∈ ds, pyDigit x = true) (hcl : pyDigit cl = false)
    (hdiff : cl ≠ c) :
    optNumLit c (ds ++ cl :: r) = (none, ds ++ cl :: r) := by
  have hspan := takeWhile_append_span (p := pyDigit) (A := ds) (B := cl :: r) hd
    (fun x hx => by
      have hcx : cl = x := by simpa using hx
      rw [← hcx]; exact hcl)
  unfold optNumLit
  rw [hspan.1, hspan.2, if_neg hne]
  simp [hdiff]

lemma optNumLit_nil (c : Char) : optNumLit c [] = (none, []) := rfl

lemma duration_minutes_PT (rest : List Char) :
    duration_minutes ('P' :: 'T' :: rest) =
      some (natOfDigits ((optNumLit 'H' rest).1.getD []) * 60 +
            natOfDigits ((optNumLit 'M' (optNumLit 'H' rest).2).1.getD []) +
            (if natOfDigits
                ((optNumLit 'S' (optNumLit 'M' (optNumLit 'H' rest).2).2).1.getD [])
                > 0 then 1 else 0)) := rfl

lemma natOfDigits_nil : natOfDigits [] = 0 := rfl

/-- C10.  For every ISO-8601 duration `PT{h}H{m}M{s}S` with each component
an optional nonempty digit string, `duration_minutes` returns
`60*h + m`, plus one more minute exactly when `s > 0` (partial minutes
round up); it returns `none` for the empty string and for any string not
beginning with `PT`. -/
theorem duration_minutes_correct :
    (∀ H M S : Option (List Char), goodComp H → goodComp M → goodComp S →
      duration_minutes (mkDuration H M S) =
        some (60 * valOf H + valOf M + (if valOf S > 0 then 1 else 0)))
    ∧ (∀ d : List Char, d = [] ∨ d.take 2 ≠ ['P', 'T'] →
        duration_minutes d = none) := by
  constructor
  · intro H M S hH hM hS
    rcases H with _ | dh <;> rcases M with _ | dm <;> rcases S with _ | ds <;>
      simp only [mkDuration, optComp, List.nil_append, List.append_nil,
        List.append_assoc, List.singleton_append]
    · decide
    · obtain ⟨hne, hdig⟩ := hS
      have e1 := optNumLit_missLit 'H' 'S' (r := []) hne hdig (by decide) (by decide)
      have e2 := optNumLit_missLit 'M' 'S' (r := []) hne hdig (by decide) (by decide)
      have e3 := optNumLit_hit 'S' (r := []) hne hdig (by decide)
      simp only [duration_minutes_PT, e1, e2, e3, Option.getD_some,
        Option.getD_none, natOfDigits_nil, valOf, Option.some.injEq]
      try omega
    · obtain ⟨hne, hdig⟩ := hM
      have e1 := optNumLit_missLit 'H' 'M' (r := []) hne hdig (by decide) (by decide)
      have e2 := optNumLit_hit 'M' (r := []) hne hdig (by decide)
      simp only [duration_minutes_PT, e1, e2, optNumLit_nil, Option.getD_some,
        Option.getD_none, natOfDigits_nil, valOf, Option.some.injEq]
      try omega
    · obtain ⟨hneM, hdigM⟩ := hM
      obtain ⟨hneS, hdigS⟩ := hS
      have e1 := optNumLit_missLit 'H' 'M' (r := ds ++ ['S']) hneM hdigM
        (by decide) (by decide)
      have e2 := optNumLit_hit 'M' (r := ds ++ ['S']) hneM hdigM (by decide)
      have e3 := optNumLit_hit 'S' (r := []) hneS hdigS (by decide)
      simp only [duration_minutes_PT, e1, e2, e3, Option.getD_some,
        Option.getD_none, natOfDigits_nil, valOf, Option.some.injEq]
      try omega
    · obtain ⟨hne, hdig⟩ := hH
      have e1 := optNumLit_hit 'H' (r := []) hne hdig (by decide)
      simp only [duration_minutes_PT, e1, optNumLit_nil, Option.getD_some,
        Option.getD_none, natOfDigits_nil, valOf, Option.some.injEq]
      try omega
    · obtain ⟨hneH, hdigH⟩ := hH
      obtain ⟨hneS, hdigS⟩ := hS
      have e1 := optNumLit_hit 'H' (r := ds ++ ['S']) hneH hdigH (by decide)
      have e2 := optNumLit_missLit 'M' 'S' (r := []) hneS hdigS
        (by decide) (by decide)
      have e3 := optNumLit_hit 'S' (r := []) hneS hdigS (by decide)
      simp only [duration_minutes_PT, e1, e2, e3, Option.getD_some,
        Option.getD_none, natOfDigits_nil, valOf, Option.some.injEq]
      try omega
    · obtain ⟨hneH, hdigH⟩ := hH
      obtain ⟨hneM, hdigM⟩ := hM
      have e1 := optNumLit_hit 'H' (r := dm ++ ['M']) hneH hdigH (by decide)
      have e2 := optNumLit_hit 'M' (r := []) hneM hdigM (by decide)
      simp only [duration_minutes_PT, e1, e2, optNumLit_nil, Option.getD_some,
        Option.getD_none, natOfDigits_nil, valOf, Option.some.injEq]
      try omega
    · obtain ⟨hneH, hdigH⟩ := hH
      obtain ⟨hneM, hdigM⟩ := hM
      obtain ⟨hneS, hdigS⟩ := hS
      have e1 := optNumLit_hit 'H' (r := dm ++ 'M' :: (ds ++ ['S'])) hneH hdigH
        (by decide)
      have e2 := optNumLit_hit 'M' (r := ds ++ ['S']) hneM hdigM (by decide)
      have e3 := optNumLit_hit 'S' (r := []) hneS hdigS (by decide)
      simp only [duration_minutes_PT, e1, e2, e3, Option.getD_some,
        Option.getD_none, natOfDigits_nil, valOf, Option.some.injEq]
      try omega
  · intro d hd
    rcases d with _ | ⟨c1, _ | ⟨c2, r⟩⟩
    · rfl
    · unfold duration_minutes
      split
      · rename_i heq
        simp at heq
      · rfl
    · rcases hd with hd | hd
      · simp at hd
      · unfold duration_minutes
        split
        · rename_i rest heq
          have h1 : c1 = 'P' := by injection heq
          have hb : c2 :: r = 'T' :: rest := by injection heq
          have h2 : c2 = 'T' := by injection hb
          exact absurd (by simp [h1, h2] : (c1 :: c2 :: r).take 2 = ['P', 'T']) hd
        · rfl

/-- Witness for C10: `PT30M1S` — 30 minutes and one second round up to 31
minutes. -/
theorem duration_minutes_correct_witness :
    goodComp (none : Option (List Char)) ∧ goodComp (some "30".toList) ∧
    goodComp (some "1".toList) ∧
    duration_minutes (mkDuration none (some "30".toList) (some "1".toList)) =
      some (60 * valOf (none : Option (List Char)) + valOf (some "30".toList) +
        (if valOf (some "1".toList) > 0 then 1 else 0)) ∧
    duration_minutes "PT30M1S".toList = some 31 := by
  refine ⟨trivial, by decide, by decide, ?_, by decide⟩
  exact duration_minutes_correct.1 none (some "30".toList) (some "1".toList)
    trivial (by decide) (by decide)

lemma keepChar_not_bad {c : Char} (h : keepChar c = true) : badChar c = false := by
  cases hb : badChar c
  · rfl
  · exfalso
    simp only [badChar, Bool.or_eq_true, beq_iff_eq] at hb
    rcases hb with ((((((((h1 | h1) | h1) | h1) | h1) | h1) | h1) | h1) | h1) <;>
      subst h1 <;> exact absurd h (by decide)

lemma keepChar_cases {c : Char} (h : keepChar c = true) :
    pyAlnum c = true ∨ pySpace c = true ∨ c = '-' ∨ c = '_' ∨ c = '(' ∨
      c = ')' ∨ c = '.' := by
  simp only [keepChar, pyWord, Bool.or_eq_true, beq_iff_eq] at h
  tauto

lemma mem_collapseWs : ∀ {l : List Char} {b : Bool} {c : Char},
    c ∈ collapseWs b l → c = ' ' ∨ c ∈ l := by
  intro l
  induction l with
  | nil => intro b c hc; simp [collapseWs] at hc
  | cons a t ih =>
      intro b c hc
      by_cases ha : pySpace a = true
      · cases b with
        | true =>
            simp only [collapseWs, ha, if_true] at hc
            rcases ih hc with h | h
            · exact Or.inl h
            · exact Or.inr (List.mem_cons_of_mem _ h)
        | false =>
            simp only [collapseWs, ha, if_true] at hc
            rcases List.mem_cons.mp hc with h | h
            · exact Or.inl h
            · rcases ih h with h2 | h2
              · exact Or.inl h2
              · exact Or.inr (List.mem_cons_of_mem _ h2)
      · have ha' : pySpace a = false := by
          cases hx : pySpace a
          · rfl
          · exact absurd hx ha
        simp only [collapseWs, ha', Bool.false_eq_true, if_false] at hc
        rcases List.mem_cons.mp hc with h | h
        · exact Or.inr (h ▸ List.mem_cons_self a t)
        · rcases ih h with h2 | h2
          · exact Or.inl h2
          · exact Or.inr (List.mem_cons_of_mem _ h2)

lemma mem_of_dropWhile {p : Char → Bool} : ∀ {l : List Char} {c : Char},
    c ∈ l.dropWhile p → c ∈ l := by
  intro l
  induction l with
  | nil => intro c hc; simp [List.dropWhile] at hc
  | cons a t ih =>
      intro c hc
      by_cases ha : p a
      · rw [List.dropWhile_cons_of_pos ha] at hc
        exact List.mem_cons_of_mem _ (ih hc)
      · rw [List.dropWhile_cons_of_neg ha] at hc
        exact hc

lemma mem_pyStrip {l : List Char} {c : Char} (h : c ∈ pyStrip l) : c ∈ l := by
  unfold pyStrip at h
  have h1 := List.mem_reverse.mp h
  have h2 := mem_of_dropWhile h1
  have h3 := List.mem_reverse.mp h2
  exact mem_of_dropWhile h3

lemma sanitize_mem_keep {x : List Char} {c : Char}
    (h : c ∈ sanitize_filename x) : keepChar c = true := by
  have core : ∀ {y : List Char},
      c ∈ pyStrip (collapseWs false ((y.filter (fun d => !badChar d)).filter keepChar)) →
      keepChar c = true := by
    intro y hy
    have h1 := mem_pyStrip hy
    rcases mem_collapseWs h1 with h2 | h2
    · subst h2; decide
    · exact (List.mem_filter.mp h2).2
  simp only [sanitize_filename] at h
  split at h
  · rcases List.mem_append.mp h with h | h
    · exact core (List.take_subset _ _ h)
    · have hdots : "...".toList = ['.', '.', '.'] := by decide
      rw [hdots] at h
      have : c = '.' := by simpa using h
      subst this; decide
  · exact core h

lemma noDoubleSpace_tail {a : Char} {t : List Char}
    (h : noDoubleSpace (a :: t) = true) : noDoubleSpace t = true := by
  cases t with
  | nil => rfl
  | cons b t2 =>
      have h2 : (!(a == ' ' && b == ' ') && noDoubleSpace (b :: t2)) = true := h
      simp only [Bool.and_eq_true] at h2
      exact h2.2

lemma noDoubleSpace_head {b : Char} {t : List Char}
    (h : noDoubleSpace (' ' :: b :: t) = true) : b ≠ ' ' := by
  intro hb
  subst hb
  have h2 : (!(' ' == ' ' && ' ' == ' ') && noDoubleSpace (' ' :: t)) = true := h
  simp at h2

lemma collapseWs_id : ∀ {l : List Char},
    (∀ c ∈ l, pySpace c = true → c = ' ') → noDoubleSpace l = true →
    collapseWs false l = l ∧
    ((∀ c, l.head? = some c → c ≠ ' ') → collapseWs true l = l) := by
  intro l
  induction l with
  | nil => exact fun _ _ => ⟨rfl, fun _ => rfl⟩
  | cons a t ih =>
      intro h1 h2
      have iht := ih (fun c hc hcs => h1 c (List.mem_cons_of_mem _ hc) hcs)
        (noDoubleSpace_tail h2)
      constructor
      · by_cases ha : pySpace a = true
        · have ha2 : a = ' ' := h1 a (List.mem_cons_self a t) ha
          subst ha2
          have hhead : ∀ c, t.head? = some c → c ≠ ' ' := by
            intro c hc hc2
            subst hc2
            cases t with
            | nil => simp at hc
            | cons b t2 =>
                have hb : b = ' ' := by simpa using hc
                exact noDoubleSpace_head h2 hb
          show collapseWs false (' ' :: t) = ' ' :: t
          simp only [collapseWs, ha, if_true, Bool.false_eq_true, if_false]
          rw [iht.2 hhead]
        · have ha' : pySpace a = false := by
            cases hx : pySpace a
            · rfl
            · exact absurd hx ha
          simp only [collapseWs, ha', Bool.false_eq_true, if_false]
          rw [iht.1]
      · intro hhead
        have ha : pySpace a = false := by
          cases hx : pySpace a
          · rfl
          · exact absurd (h1 a (List.mem_cons_self a t) hx) (hhead a rfl)
        simp only [collapseWs, ha, Bool.false_eq_true, if_false]
        rw [iht.1]

lemma dropWhile_id {p : Char → Bool} {l : List Char}
    (h : ∀ c, l.head? = some c → p c = false) : l.dropWhile p = l := by
  cases l with
  | nil => rfl
  | cons a t =>
      have := h a rfl
      simp [List.dropWhile, this]

lemma sanitize_clean_id {x : List Char} (h : cleanFor x = true) :
    sanitize_filename x = x := by
  unfold cleanFor at h
  simp only [Bool.and_eq_true, List.all_eq_true, decide_eq_true_eq] at h
  obtain ⟨⟨⟨⟨hall, hnds⟩, hhd⟩, hlast⟩, hlen⟩ := h
  have hkeep : ∀ c ∈ x, keepChar c = true := by
    intro c hc
    have hs := hall c hc
    simp only [Bool.or_eq_true, beq_iff_eq] at hs
    rcases hs with ((((hw | h1) | h1) | h1) | h1) | h1
    · simp [keepChar, hw]
    all_goals (subst h1; decide)
  have hsponly : ∀ c ∈ x, pySpace c = true → c = ' ' := by
    intro c hc hsp
    have hs := hall c hc
    simp only [pySpace, Bool.or_eq_true, beq_iff_eq] at hsp
    rcases hsp with ((((h1 | h1) | h1) | h1) | h1) | h1
    · exact h1
    all_goals (subst h1; exact absurd hs (by decide))
  have h1 : x.filter (fun c => !badChar c) = x := by
    rw [List.filter_eq_self]
    intro a ha
    rw [keepChar_not_bad (hkeep a ha)]
    rfl
  have h2 : x.filter keepChar = x := List.filter_eq_self.mpr hkeep
  have h3 : collapseWs false x = x := (collapseWs_id hsponly hnds).1
  have hhd2 : ∀ c, x.head? = some c → pySpace c = false := by
    intro c hc
    cases hx : pySpace c
    · rfl
    · have hcx : c ∈ x := List.mem_of_mem_head? hc
      have hcs : c = ' ' := hsponly c hcx hx
      rw [hc] at hhd
      subst hcs
      simp at hhd
  have hlast2 : ∀ c, x.reverse.head? = some c → pySpace c = false := by
    intro c hc
    cases hx : pySpace c
    · rfl
    · have hcx : c ∈ x := List.mem_reverse.mp (List.mem_of_mem_head? hc)
      have hcs : c = ' ' := hsponly c hcx hx
      rw [List.head?_reverse] at hc
      rw [hc] at hlast
      subst hcs
      simp at hlast
  have h4 : pyStrip x = x := by
    unfold pyStrip
    rw [dropWhile_id hhd2, dropWhile_id hlast2, List.reverse_reverse]
  simp only [sanitize_filename]
  rw [h1, h2, h3, h4, if_neg (by omega)]

/-- C3.  `sanitize_filename` never emits any of the forbidden characters
`< > : " / \ | ? *`; every output character is (ASCII) alphanumeric,
whitespace, hyphen, underscore, parenthesis or period; the output length
is at most 203; any output longer than 200 characters ends in a literal
`"..."`; and an already-clean input (only kept characters, isolated
single plain spaces, no surrounding space, length at most 200) is
returned unchanged.  Totality and determinism hold by construction: the
embedding is a pure function. -/
theorem sanitize_filename_safe :
    ∀ x : List Char,
      (∀ c ∈ sanitize_filename x, badChar c = false) ∧
      (∀ c ∈ sanitize_filename x,
        pyAlnum c = true ∨ pySpace c = true ∨ c = '-' ∨ c = '_' ∨ c = '(' ∨
          c = ')' ∨ c = '.') ∧
      (sanitize_filename x).length ≤ 203 ∧
      (200 < (sanitize_filename x).length →
        ∃ y, sanitize_filename x = y ++ "...".toList) ∧
      (cleanFor x = true → sanitize_filename x = x) := by
  intro x
  refine ⟨?_, ?_, ?_, ?_, sanitize_clean_id⟩
  · intro c hc
    exact keepChar_not_bad (sanitize_mem_keep hc)
  · intro c hc
    exact keepChar_cases (sanitize_mem_keep hc)
  · simp only [sanitize_filename]
    split
    · rw [List.length_append, List.length_take]
      have : ("...".toList).length = 3 := by decide
      omega
    · rename_i hshort
      omega
  · simp only [sanitize_filename]
    split
    · intro _
      exact ⟨_, rfl⟩
    · rename_i hshort
      intro hgt
      exact absurd hgt hshort

/-- Witness for C3 at the repository's own test input `"Normal Title"`,
which is clean and therefore a fixed point of the sanitizer. -/
theorem sanitize_filename_safe_witness :
    cleanFor "Normal Title".toList = true ∧
    sanitize_filename "Normal Title".toList = "Normal Title".toList :=
  ⟨by decide, (sanitize_filename_safe "Normal Title".toList).2.2.2.2 (by decide)⟩

lemma containsSub_self {s : List Char} : containsSub s s :=
  ⟨[], [], by simp⟩

lemma containsSub_left {x y sub : List Char} (h : containsSub x sub) :
    containsSub (x ++ y) sub := by
  obtain ⟨a, b, hab⟩ := h
  exact ⟨a, b ++ y, by simp [hab]⟩

lemma containsSub_right {x y sub : List Char} (h : containsSub y sub) :
    containsSub (x ++ y) sub := by
  obtain ⟨a, b, hab⟩ := h
  exact ⟨x ++ a, b, by simp [hab, List.append_assoc]⟩

/-- C9.  With metadata generation enabled, the sidecar document for a
video is produced (and suppressed when disabled); it contains the video's
title in the title tag, the description truncated to at most 500
characters with the ellipsis marker appended in the plot tag, the
date-only ISO-8601 air date, the fixed `YouTube` studio and tag labels,
the unique external identifier, and the runtime in whole minutes; and the
sidecar path replaces the media file's extension by `.nfo`, i.e. sits at
the media file's path stem. -/
theorem nfo_sidecar_content :
    (∀ v : YouTubeVideo,
      create_nfo_file true v = some (nfoContent v) ∧
      create_nfo_file false v = none ∧
      (v.description.take 500).length ≤ 500 ∧
      containsSub (nfoContent v)
        ("<title>".toList ++ v.title ++ "</title>".toList) ∧
      containsSub (nfoContent v)
        ("<plot>".toList ++ v.description.take 500 ++ "...</plot>".toList) ∧
      containsSub (nfoContent v)
        ("<aired>".toList ++ fmtYmd v.publishedY v.publishedM v.publishedD ++
          "</aired>".toList) ∧
      containsSub (nfoContent v) "<studio>YouTube</studio>".toList ∧
      containsSub (nfoContent v) "<tag>YouTube</tag>".toList ∧
      containsSub (nfoContent v)
        ("<uniqueid type=\"youtube\">".toList ++ v.video_id ++
          "</uniqueid>".toList) ∧
      containsSub (nfoContent v)
        ("<runtime>".toList ++
          Nat.toDigits 10 ((duration_minutes v.duration).getD 0) ++
          "</runtime>".toList))
    ∧ (∀ dir nm ext : List Char,
        nm ≠ [] → (∀ c ∈ nm, c ≠ '/') → ext ≠ [] →
        (∀ c ∈ ext, c ≠ '.' ∧ c ≠ '/') →
        withSuffixNfo (dir ++ '/' :: (nm ++ '.' :: ext)) =
          dir ++ '/' :: (nm ++ ".nfo".toList)) := by
  constructor
  · intro v
    refine ⟨rfl, rfl, ?_, ?_, ?_, ?_, ?_, ?_, ?_, ?_⟩
    · exact List.length_take_le 500 v.description
    · show containsSub (nfoContent v) _
      unfold nfoContent
      iterate 13 apply containsSub_left
      exact containsSub_right containsSub_self
    · unfold nfoContent
      iterate 11 apply containsSub_left
      exact containsSub_right containsSub_self
    · unfold nfoContent
      iterate 9 apply containsSub_left
      exact containsSub_right containsSub_self
    · unfold nfoContent
      iterate 7 apply containsSub_left
      exact containsSub_right containsSub_self
    · unfold nfoContent
      iterate 5 apply containsSub_left
      exact containsSub_right containsSub_self
    · unfold nfoContent
      iterate 3 apply containsSub_left
      exact containsSub_right containsSub_self
    · unfold nfoContent
      iterate 1 apply containsSub_left
      exact containsSub_right containsSub_self
  · intro dir nm ext hnm hnmS hext hextC
    have hrev : (dir ++ '/' :: (nm ++ '.' :: ext)).reverse
        = (ext.reverse ++ '.' :: nm.reverse) ++ ('/' :: dir.reverse) := by
      simp [List.reverse_append, List.append_assoc]
    have hspan1 := takeWhile_append_span
      (p := fun c => decide (c ≠ '/'))
      (A := ext.reverse ++ '.' :: nm.reverse) (B := '/' :: dir.reverse)
      (by
        intro c hc
        rcases List.mem_append.mp hc with hc | hc
        · simp [(hextC c (List.mem_reverse.mp hc)).2]
        · rcases List.mem_cons.mp hc with hc | hc
          · subst hc; decide
          · simp [hnmS c (List.mem_reverse.mp hc)])
      (by
        intro c hc
        have hcc : '/' = c := by simpa using hc
        subst hcc
        decide)
    have hspan2 := takeWhile_append_span
      (p := fun c => decide (c ≠ '.'))
      (A := ext.reverse) (B := '.' :: nm.reverse)
      (by
        intro c hc
        simp [(hextC c (List.mem_reverse.mp hc)).1])
      (by
        intro c hc
        have hcc : '.' = c := by simpa using hc
        subst hcc
        decide)
    simp only [withSuffixNfo]
    rw [hrev, hspan1.1, hspan1.2, hspan2.1, hspan2.2]
    split
    · rename_i s hs
      have hsnm : nm.reverse = s := by
        injection hs
      subst hsnm
      rw [if_neg (by simp [hnm, hext])]
      simp [List.append_assoc]
    · rename_i hx
      exact absurd rfl (hx nm.reverse)


/-- Witness for C9 at a concrete video and a concrete media path. -/
theorem nfo_sidecar_content_witness :
    create_nfo_file true sevenMinVideo = some (nfoContent sevenMinVideo) ∧
    containsSub (nfoContent sevenMinVideo) "<studio>YouTube</studio>".toList ∧
    ("ep".toList ≠ [] ∧ "mp4".toList ≠ []) ∧
    withSuffixNfo ("/tv/Show".toList ++ '/' :: ("ep".toList ++ '.' :: "mp4".toList)) =
      "/tv/Show".toList ++ '/' :: ("ep".toList ++ ".nfo".toList) := by
  refine ⟨(nfo_sidecar_content.1 sevenMinVideo).1,
    (nfo_sidecar_content.1 sevenMinVideo).2.2.2.2.2.2.1,
    ⟨by decide, by decide⟩, ?_⟩
  exact nfo_sidecar_content.2 "/tv/Show".toList "ep".toList "mp4".toList
    (by decide) (by decide) (by decide) (by decide)

example :
    extract_episode_info "Game of Thrones S01E01".toList
      = (some "Game of Thrones".toList, some 1, some 1) := by decide

example :
    extract_episode_info "University Challenge S55E04 - Newcastle v. Edinburgh".toList
      = (some "University Challenge".toList, some 55, some 4) := by decide

example :
    extract_episode_info "Only Connect - Series 21 - Episode 3".toList
      = (some "Only Connect".toList, some 21, some 3) := by decide

example :
    extract_episode_info "Daily Show 2024".toList
      = (some "Daily Show".toList, some 1, some 2024) := by decide

example :
    extract_episode_info "Random Video Title".toList = (none, none, none) := by decide

example : sanitize_filename "Title/With/Slashes".toList = "TitleWithSlashes".toList := by decide
example : sanitize_filename "  A   B  ".toList = "A B".toList := by decide

example : duration_minutes "PT1H30M45S".toList = some 91 := by decide
example : duration_minutes "PT30M1S".toList = some 31 := by decide
example : duration_minutes "PT30M".toList = some 30 := by decide
example : duration_minutes "".toList = none := by decide
example : duration_minutes "1H30M".toList = none := by decide

example :
    generate_plex_path onlyConnectVideo "/tmp".toList true
      = ("/tmp/Only Connect/Season 21".toList,
         "Only Connect - S21E03 - Only Connect - Series 21 - Episode 3".toList) := by
  decide

example : withSuffixNfo "/tv/Show/ep.mp4".toList = "/tv/Show/ep.nfo".toList := by decide
example : withSuffixNfo "/tv/Show/ep".toList = "/tv/Show/ep.nfo".toList := by decide
